import Mathlib

/-!
Verification development for the DeskPatient patient-registry application.

The Python source is shallowly embedded: strings are lists of characters
(`Str`), Python `str.lower`/`str.upper`/`str.strip` become `lowerStr`,
`upperStr`, `stripStr`; `datetime.date` becomes the `Date` structure with
Python's lexicographic comparison; the SQLAlchemy-backed repository
(`repo.py`) becomes pure functions over a list of rows; the Qt filter and
pagination proxies (`ui/manage_patients.py`) become pure predicates over
display rows.  Every definition mirrors a specific function of the source,
named in its doc comment.
-/
/-- Strings are modelled as lists of characters (the application data is
ASCII, where Python and Lean case conversion agree). -/
abbrev Str := List Char
/-- Python `str.lower` (ASCII range). -/
def lowerStr (s : Str) : Str := s.map Char.toLower
/-- Python `str.upper` (ASCII range). -/
def upperStr (s : Str) : Str := s.map Char.toUpper
/-- Python `str.lstrip`: drop leading whitespace. -/
def lstripStr (s : Str) : Str := s.dropWhile Char.isWhitespace
/-- Python `str.strip`: drop leading and trailing whitespace. -/
def stripStr (s : Str) : Str :=
  ((s.dropWhile Char.isWhitespace).reverse.dropWhile Char.isWhitespace).reverse
/-- Python `s.startswith(pat)`: `beginsWith s pat` is true when `pat` is an
initial segment of `s`. -/
def beginsWith : Str → Str → Bool
  | _, [] => true
  | [], _ :: _ => false
  | c :: s, d :: p => c == d && beginsWith s p
/-- Python `s.endswith(pat)`. -/
def endsWith (s pat : Str) : Bool := beginsWith s.reverse pat.reverse
/-- Python `pat in s` (substring containment). -/
def hasSub : Str → Str → Bool
  | [], pat => pat.isEmpty
  | c :: s, pat => beginsWith (c :: s) pat || hasSub s pat
/-- `PatientFilterProxy._match_cin` (ui/manage_patients.py, lines 101-110):
empty predicate accepts everything; a leading `=` (checked on the lowered
predicate) selects exact comparison against the remainder; a trailing `*`
selects comparison of the part before the star against the start of the
cell; otherwise substring containment.  All comparisons lowered. -/
def matchCin (p cell : Str) : Bool :=
  if p = [] then true
  else
    let cellLow := lowerStr cell
    let pLow := lowerStr p
    if beginsWith pLow ['='] then cellLow == pLow.tail
    else if endsWith pLow ['*'] then beginsWith cellLow pLow.dropLast
    else hasSub cellLow pLow
/-- The business-key matching modes exactly as the specification words them,
dispatching on the raw predicate string: leading `=` means case-insensitive
equality with the remainder, trailing `*` means case-insensitive match of
the part before the star against the start of the value, otherwise
case-insensitive substring; the empty predicate accepts every value. -/
def matchCinSpec (p cell : Str) : Bool :=
  if p = [] then true
  else if beginsWith p ['='] then lowerStr cell == lowerStr p.tail
  else if endsWith p ['*'] then beginsWith (lowerStr cell) (lowerStr p.dropLast)
  else hasSub (lowerStr cell) (lowerStr p)
/-- Python `datetime.date`: a calendar date. -/
structure Date where
  y : Nat
  m : Nat
  d : Nat
deriving DecidableEq, Repr
/-- Python date comparison `a < b`: lexicographic on (year, month, day). -/
def dateLtB (a b : Date) : Bool :=
  decide (a.y < b.y ∨ (a.y = b.y ∧ (a.m < b.m ∨ (a.m = b.m ∧ a.d < b.d))))
/-- Gregorian leap-year rule, as used by `datetime.date` validity. -/
def isLeap (y : Nat) : Bool :=
  decide (y % 4 = 0 ∧ (y % 100 ≠ 0 ∨ y % 400 = 0))
def daysInMonth (y m : Nat) : Nat :=
  if m = 2 then (if isLeap y then 29 else 28)
  else if m = 4 ∨ m = 6 ∨ m = 9 ∨ m = 11 then 30
  else 31
/-- `datetime.date(y, m, d)` construction: validates the ranges
(`MINYEAR = 1`; month and day ranges already guaranteed by the
`strptime` digit patterns are re-checked here). -/
def mkDate (y m d : Nat) : Option Date :=
  if 1 ≤ y ∧ 1 ≤ m ∧ m ≤ 12 ∧ 1 ≤ d ∧ d ≤ daysInMonth y m then some ⟨y, m, d⟩
  else none
def digitVal (c : Char) : Nat := c.toNat - 48
/-- CPython `strptime` directive `%Y`: exactly four digits. -/
def parseYear4 : Str → Option (Nat × Str)
  | a :: b :: c :: d :: rest =>
    if a.isDigit ∧ b.isDigit ∧ c.isDigit ∧ d.isDigit then
      some (1000 * digitVal a + 100 * digitVal b + 10 * digitVal c + digitVal d, rest)
    else none
  | _ => none
/-- CPython `strptime` directive `%m`: the pattern `1[0-2]|0[1-9]|[1-9]`,
alternatives tried left to right. -/
def parseMonth2 : Str → Option (Nat × Str)
  | a :: b :: rest =>
    if a = '1' ∧ '0' ≤ b ∧ b ≤ '2' then some (10 + digitVal b, rest)
    else if a = '0' ∧ '1' ≤ b ∧ b ≤ '9' then some (digitVal b, rest)
    else if '1' ≤ a ∧ a ≤ '9' then some (digitVal a, b :: rest)
    else none
  | [a] => if '1' ≤ a ∧ a ≤ '9' then some (digitVal a, []) else none
  | [] => none
/-- CPython `strptime` directive `%d`: the pattern
`3[01]|[12]\d|0[1-9]|[1-9]`, alternatives tried left to right. -/
def parseDay2 : Str → Option (Nat × Str)
  | a :: b :: rest =>
    if a = '3' ∧ ('0' ≤ b ∧ b ≤ '1') then some (30 + digitVal b, rest)
    else if (a = '1' ∨ a = '2') ∧ b.isDigit then some (10 * digitVal a + digitVal b, rest)
    else if a = '0' ∧ '1' ≤ b ∧ b ≤ '9' then some (digitVal b, rest)
    else if '1' ≤ a ∧ a ≤ '9' then some (digitVal a, b :: rest)
    else none
  | [a] => if '1' ≤ a ∧ a ≤ '9' then some (digitVal a, []) else none
  | [] => none
/-- A literal separator character in a `strptime` format string. -/
def expectChar (c : Char) : Str → Option Str
  | d :: rest => if d = c then some rest else none
  | [] => none
/-- `datetime.strptime(s, "%Y-%m-%d").date()`: the whole input must be
consumed, then the date is validated. -/
def parseIso (s : Str) : Option Date :=
  match parseYear4 s with
  | none => none
  | some (y, r1) =>
    match expectChar '-' r1 with
    | none => none
    | some r2 =>
      match parseMonth2 r2 with
      | none => none
      | some (m, r3) =>
        match expectChar '-' r3 with
        | none => none
        | some r4 =>
          match parseDay2 r4 with
          | none => none
          | some (d, r5) => if r5 = [] then mkDate y m d else none
/-- `datetime.strptime(s, "%m/%d/%Y").date()`. -/
def parseMDY (s : Str) : Option Date :=
  match parseMonth2 s with
  | none => none
  | some (m, r1) =>
    match expectChar '/' r1 with
    | none => none
    | some r2 =>
      match parseDay2 r2 with
      | none => none
      | some (d, r3) =>
        match expectChar '/' r3 with
        | none => none
        | some r4 =>
          match parseYear4 r4 with
          | none => none
          | some (y, r5) => if r5 = [] then mkDate y m d else none
/-- `datetime.strptime(s, "%d/%m/%Y").date()`. -/
def parseDMY (s : Str) : Option Date :=
  match parseDay2 s with
  | none => none
  | some (d, r1) =>
    match expectChar '/' r1 with
    | none => none
    | some r2 =>
      match parseMonth2 r2 with
      | none => none
      | some (m, r3) =>
        match expectChar '/' r3 with
        | none => none
        | some r4 =>
          match parseYear4 r4 with
          | none => none
          | some (y, r5) => if r5 = [] then mkDate y m d else none
/-- `parse_birth_date` (ui/manage_patients.py, lines 57-63): strip, empty
means no date, otherwise try the three formats in order; the first success
wins and total failure raises `ValueError` with this message. -/
def parse_birth_date (s : Str) : Except Str (Option Date) :=
  let t := stripStr s
  if t = [] then .ok none
  else
    match parseIso t with
    | some d => .ok (some d)
    | none =>
      match parseMDY t with
      | some d => .ok (some d)
      | none =>
        match parseDMY t with
        | some d => .ok (some d)
        | none => .error "Invalid birth_date. Use YYYY-MM-DD, MM/DD/YYYY, or DD/MM/YYYY.".toList
/-- Zero-padded decimal rendering of width at least `w`. -/
def padNum (w n : Nat) : Str :=
  let ds := Nat.toDigits 10 n
  List.replicate (w - ds.length) '0' ++ ds
/-- `date.isoformat()`: `YYYY-MM-DD`. -/
def isoStr (d : Date) : Str :=
  padNum 4 d.y ++ ['-'] ++ padNum 2 d.m ++ ['-'] ++ padNum 2 d.d
/-- A persisted patient row (`models.Patient`): the store has assigned the
integer primary key. -/
structure Patient where
  id : Int
  cin : Str
  first_name : Str
  last_name : Str
  birth_date : Option Date
  phone : Option Str
  email : Option Str
  notes : Option Str
deriving DecidableEq, Repr
/-- `domain.PatientDTO`: the transfer record, id absent before creation. -/
structure PatientDTO where
  id : Option Int
  cin : Str
  first_name : Str
  last_name : Str
  birth_date : Option Date
  phone : Option Str
  email : Option Str
  notes : Option Str
deriving DecidableEq, Repr
/-- The relational store modelled as the list of persisted rows. -/
abbrev Store := List Patient
/-- `PatientRepo.exists_cin` (repo.py, lines 25-29): counts rows whose
lowered CIN equals the lowered argument, optionally excluding one id. -/
def exists_cin (st : Store) (cin : Str) (exclude : Option Int) : Bool :=
  st.any (fun r =>
    (lowerStr r.cin == lowerStr cin) &&
      (match exclude with
       | some e => !(r.id == e)
       | none => true))
/-- `repo._apply`: copy the DTO fields onto a row with the given id. -/
def applyDto (dto : PatientDTO) (idv : Int) : Patient :=
  ⟨idv, dto.cin, dto.first_name, dto.last_name, dto.birth_date,
    dto.phone, dto.email, dto.notes⟩
/-- The autoincrement primary key the embedded database assigns on insert
(one more than the largest id in the table). -/
def nextId (st : Store) : Int :=
  1 + st.foldl (fun acc r => max acc r.id) 0
/-- The `ValueError` message raised by `PatientRepo.create`/`update` on a
duplicate CIN. -/
def dupMsg (cin : Str) : Str :=
  "CIN '".toList ++ cin ++ "' already exists.".toList
/-- `PatientRepo.create` (repo.py, lines 31-41): reject a duplicate
(case-insensitive) CIN, otherwise append the new row and return its id. -/
def repoCreate (st : Store) (dto : PatientDTO) : Except Str (Store × Int) :=
  if exists_cin st dto.cin none then .error (dupMsg dto.cin)
  else
    let i := nextId st
    .ok (st ++ [applyDto dto i], i)
/-- The session state after `PatientRepo.create` returns or raises: on the
error path nothing was committed, so the store is unchanged. -/
def storeAfterCreate (st : Store) (dto : PatientDTO) : Store :=
  match repoCreate st dto with
  | .ok (s, _) => s
  | .error _ => st
/-- Replace the single row the primary-key lookup found. -/
def replaceFirst (p : Patient → Bool) (new : Patient) : Store → Store
  | [] => []
  | r :: rs => if p r then new :: rs else r :: replaceFirst p new rs
/-- `PatientRepo.update` (repo.py, lines 43-55): the source asserts the DTO
carries an id (an absent id is modelled as the assertion error); a CIN
collision with a different row is rejected; an id no longer present is a
silent no-op; otherwise the row is overwritten. -/
def repoUpdate (st : Store) (dto : PatientDTO) : Except Str Store :=
  match dto.id with
  | none => .error "assert dto.id is not None".toList
  | some i =>
    if exists_cin st dto.cin (some i) then .error (dupMsg dto.cin)
    else
      match st.find? (fun r => r.id == i) with
      | none => .ok st
      | some _ => .ok (replaceFirst (fun r => r.id == i) (applyDto dto i) st)
/-- The session state after `PatientRepo.update` returns or raises. -/
def storeAfterUpdate (st : Store) (dto : PatientDTO) : Store :=
  match repoUpdate st dto with
  | .ok s => s
  | .error _ => st
/-- `PatientRepo.delete` (repo.py, lines 76-80): fetch by primary key;
delete the fetched row when present, otherwise do nothing. -/
def repoDelete (st : Store) (pid : Int) : Store :=
  match st.find? (fun r => r.id == pid) with
  | none => st
  | some _ => st.eraseP (fun r => r.id == pid)
/-- The text the database renders for the birth-date column
(`cast(birth_date, String)` with `ifnull(..., "")`). -/
def birthTextOf (r : Patient) : Str :=
  match r.birth_date with
  | some d => isoStr d
  | none => []
/-- The searched fields of `PatientRepo.list` in source order: cin, first
name, last name, phone, email, notes, birth-date text (repo.py, 65-72). -/
def queryFields (r : Patient) : List Str :=
  [r.cin, r.first_name, r.last_name, r.phone.getD [], r.email.getD [],
    r.notes.getD [], birthTextOf r]
/-- SQL `LIKE` pattern matching as SQLite evaluates it (no `ESCAPE`
clause): `%` matches any sequence of characters, `_` matches exactly one
character, any other pattern character matches itself.  Both sides of the
comparison are already lowered by the query, so literal characters compare
exactly. -/
def likeMatch : Str → Str → Bool
  | [], s => s.isEmpty
  | c :: p, s =>
    if c = '%' then s.tails.any (fun t => likeMatch p t)
    else
      match s with
      | [] => false
      | d :: s2 =>
        if c = '_' then likeMatch p s2
        else (c == d) && likeMatch p s2

/-- Queries free of the `LIKE` wildcard characters `%` and `_`. -/
def noWildcards (s : Str) : Bool :=
  s.all (fun c => !(c == '%') && !(c == '_'))

/-- The `WHERE` clause of `PatientRepo.list` (repo.py, lines 63-73): the
query is lowered and wrapped as `%q%`, and each lowered field is tested
with SQL `LIKE`; wildcard characters inside the query keep their `LIKE`
meaning because nothing escapes them. -/
def matchesQuery (q : Str) (r : Patient) : Bool :=
  (queryFields r).any (fun f =>
    likeMatch ('%' :: (lowerStr q ++ ['%'])) (lowerStr f))
/-- Byte-order (SQLite BINARY collation) comparison of text values; UTF-8
byte order coincides with code-point order. -/
def strLeB : Str → Str → Bool
  | [], _ => true
  | _ :: _, [] => false
  | a :: as, b :: bs =>
    if a.toNat < b.toNat then true
    else if b.toNat < a.toNat then false
    else strLeB as bs
/-- The `ORDER BY last_name, first_name` comparison of repo.py line 62. -/
def NameLe (r s : Patient) : Prop :=
  (if r.last_name = s.last_name
   then strLeB r.first_name s.first_name
   else strLeB r.last_name s.last_name) = true
instance : DecidableRel NameLe := fun _ _ => instDecidableEqBool _ _
/-- `PatientRepo.list` (repo.py, lines 61-74): filter by the optional query
(`if q:` treats an empty string like an absent one), order by last name
then first name. -/
def repoList (st : Store) (q : Option Str) : List Patient :=
  let filtered :=
    match q with
    | none => st
    | some qs => if qs = [] then st else st.filter (matchesQuery qs)
  List.insertionSort NameLe filtered
/-- A display row as the base table model exposes it
(`PatientTableModel.data`): eight display strings, columns 0=ID, 1=CIN,
2=First, 3=Last, 4=Birth, 5=Phone, 6=Email, 7=Notes. -/
structure Row where
  id : Str
  cin : Str
  first : Str
  last : Str
  birth : Str
  phone : Str
  email : Str
  notes : Str
deriving DecidableEq, Repr
/-- `PatientFilterProxy` predicate state (ui/manage_patients.py, 74-99):
the text predicates as stored by `set_filters` (stripped, and lowered for
first/last/phone/email), the optional date range, and the per-column
inclusion sets as an association list (Python `dict[int, set[str]]`). -/
structure FilterState where
  f_cin : Str
  f_first : Str
  f_last : Str
  f_phone : Str
  f_email : Str
  f_birth_from : Option Date
  f_birth_to : Option Date
  include_values : List (Nat × List Str)
deriving DecidableEq, Repr
/-- `PatientFilterProxy.set_filters` (lines 91-99). -/
def set_filters (cin first last phone email : Str)
    (bfrom bto : Option Date) (fs : FilterState) : FilterState :=
  { fs with
    f_cin := stripStr cin
    f_first := lowerStr (stripStr first)
    f_last := lowerStr (stripStr last)
    f_phone := lowerStr (stripStr phone)
    f_email := lowerStr (stripStr email)
    f_birth_from := bfrom
    f_birth_to := bto }
/-- Python `dict.pop(col, None)` on the inclusion mapping. -/
def eraseIncl (col : Nat) (l : List (Nat × List Str)) : List (Nat × List Str) :=
  l.filter (fun e => !(e.1 == col))
/-- `PatientFilterProxy.set_inclusion_values` (lines 86-89): a non-empty
set is stored for the column, an empty or absent one removes the entry. -/
def set_inclusion_values (col : Nat) (values : Option (List Str))
    (fs : FilterState) : FilterState :=
  { fs with include_values :=
      match values with
      | some vs =>
        if vs = [] then eraseIncl col fs.include_values
        else eraseIncl col fs.include_values ++ [(col, vs)]
      | none => eraseIncl col fs.include_values }
/-- The cell list `[id_, cin, first, last, birth, phone, email, notes]`
built in `filterAcceptsRow` (line 131): columns 2,3,5,6,7 were lowered on
read. -/
def cellsLow (r : Row) : List Str :=
  [r.id, r.cin, lowerStr r.first, lowerStr r.last, r.birth,
    lowerStr r.phone, lowerStr r.email, lowerStr r.notes]
/-- One iteration of the inclusion-set loop (lines 129-135): an empty set
imposes nothing; otherwise the cell (kept verbatim for the date column 4,
lowered otherwise) must belong to the correspondingly lowered set. -/
def inclAccept (col : Nat) (allowed : List Str) (r : Row) : Bool :=
  if allowed = [] then true
  else
    let cell := (cellsLow r).getD col []
    let cell_cmp := if col = 4 then cell else lowerStr cell
    let allowed_cmp := allowed.map (fun a => if col = 4 then a else lowerStr a)
    decide (cell_cmp ∈ allowed_cmp)
/-- The free-text predicate pattern of lines 138-141: an empty predicate
imposes nothing, otherwise the (already lowered) predicate must occur in
the lowered cell. -/
def substrPass (p cell : Str) : Bool :=
  decide (p = []) || hasSub cell p
/-- The birth-date range check of lines 143-149: active only when a bound
is set and the cell is non-empty; the cell is parsed as `%Y-%m-%d`, a date
below `from` or above `to` is rejected, and a parse failure falls through
to acceptance (`except: pass`). -/
def dateAccept (bfrom bto : Option Date) (birth : Str) : Bool :=
  if (bfrom.isSome || bto.isSome) && !birth.isEmpty then
    match parseIso birth with
    | some bd =>
      if (match bfrom with | some f => dateLtB bd f | none => false) then false
      else if (match bto with | some t => dateLtB t bd | none => false) then false
      else true
    | none => true
  else true
/-- `PatientFilterProxy.filterAcceptsRow` (lines 112-150): the inclusion
loop, the CIN matcher, the four substring predicates and the date range,
each an early `return False` in the source. -/
def filterAcceptsRow (fs : FilterState) (r : Row) : Bool :=
  fs.include_values.all (fun cv => inclAccept cv.1 cv.2 r)
  && matchCin fs.f_cin r.cin
  && substrPass fs.f_first (lowerStr r.first)
  && substrPass fs.f_last (lowerStr r.last)
  && substrPass fs.f_phone (lowerStr r.phone)
  && substrPass fs.f_email (lowerStr r.email)
  && dateAccept fs.f_birth_from fs.f_birth_to r.birth
/-- The individual active predicates of a filter state, one per inclusion
entry plus the six field predicates. -/
def activePreds (fs : FilterState) : List (Row → Bool) :=
  fs.include_values.map (fun cv => fun r => inclAccept cv.1 cv.2 r)
  ++ [fun r => matchCin fs.f_cin r.cin,
      fun r => substrPass fs.f_first (lowerStr r.first),
      fun r => substrPass fs.f_last (lowerStr r.last),
      fun r => substrPass fs.f_phone (lowerStr r.phone),
      fun r => substrPass fs.f_email (lowerStr r.email),
      fun r => dateAccept fs.f_birth_from fs.f_birth_to r.birth]
/-- The row sequence the filter layer exposes. -/
def filteredRows (fs : FilterState) (S : List Row) : List Row :=
  S.filter (filterAcceptsRow fs)
/-- The deduplicated value list the filter popup builds from the current
filtered rows (`seen`, lines 689-695): first occurrence order kept. -/
def buildSeen (vals : List Str) : List Str :=
  vals.foldl (fun acc v => if v ∈ acc then acc else acc ++ [v]) []
/-- The raw display value of a column, as the popup reads it through the
filter proxy (`data(idx, DisplayRole)`). -/
def rowCellRaw (r : Row) (col : Nat) : Str :=
  ([r.id, r.cin, r.first, r.last, r.birth, r.phone, r.email, r.notes]).getD col []
/-- The column values currently visible through the filter layer, from
which the popup builds its checklist. -/
def visibleVals (fs : FilterState) (S : List Row) (col : Nat) : List Str :=
  (filteredRows fs S).map (fun r => rowCellRaw r col)
/-- The popup `accept` handler for a checklist column (lines 708-716):
`chosen` is the set of checked values; when every listed value is checked
(`len(chosen) == lst.count()`) the choice degenerates to no restriction,
and an empty choice is also passed as `None`. -/
def popupAccept (col : Nat) (seen chosen : List Str) (fs : FilterState) :
    FilterState :=
  let chosen2 := if chosen.length = seen.length then [] else chosen
  set_inclusion_values col (if chosen2 = [] then none else some chosen2) fs
/-- Lookup of a column's stored inclusion set (Python `dict.get`). -/
def lookupIncl (col : Nat) (l : List (Nat × List Str)) : Option (List Str) :=
  (l.find? (fun e => e.1 == col)).map (fun e => e.2)
/-- What the inclusion mapping of a state imposes on one column: nothing
when no entry is stored, otherwise the stored check. -/
def inclStateAccept (fs : FilterState) (col : Nat) (r : Row) : Bool :=
  match lookupIncl col fs.include_values with
  | none => true
  | some allowed => inclAccept col allowed r
/-- `PageProxy` state (ui/manage_patients.py, lines 155-170). -/
structure PageState where
  page : Int
  size : Int
deriving DecidableEq, Repr
/-- `PageProxy.set_page` (line 161-162): clamp to at least 1. -/
def pp_set_page (p : Int) (st : PageState) : PageState :=
  { st with page := max 1 p }
/-- `PageProxy.set_page_size` (line 163-164): clamp to at least 1. -/
def pp_set_page_size (k : Int) (st : PageState) : PageState :=
  { st with size := max 1 k }
/-- `PageProxy.total_pages` (lines 168-170): `max(1, (n + k - 1) // k)`
with Python floor division. -/
def pp_total_pages (st : PageState) (n : Nat) : Int :=
  max 1 (((n : Int) + st.size - 1).fdiv st.size)
/-- The page clamp of `_update_pagination_labels` (lines 382-385): pull the
page down to the total page count, then up to 1. -/
def clampPage (st : PageState) (n : Nat) : PageState :=
  let tp := pp_total_pages st n
  let st1 := if st.page > tp then pp_set_page tp st else st
  if st1.page < 1 then pp_set_page 1 st1 else st1
/-- `PageProxy.filterAcceptsRow` (lines 172-175) for 1-based page `p` and
page size `k`: keep the source rows whose position lies in
`[(p-1)*k, (p-1)*k + k)`. -/
def pageAcceptsIdx (p k i : Nat) : Bool :=
  decide ((p - 1) * k ≤ i) && decide (i < (p - 1) * k + k)
/-- The row window the pagination layer exposes over a filtered sequence. -/
def pageRows (p k : Nat) (S : List Row) : List Row :=
  (S.enum.filter (fun x => pageAcceptsIdx p k x.1)).map Prod.snd
/-- `PageProxy.total_pages` restated over the natural row count and page
size the invariants guarantee. -/
def totalPagesN (n k : Nat) : Nat :=
  max 1 ((n + k - 1) / k)
/-- One data row as `csv.DictReader` delivers it (absent keys read as
empty, mirroring `row.get(...) or ""`). -/
structure RawRow where
  cin : Str
  first_name : Str
  last_name : Str
  birth_date : Str
  phone : Str
  email : Str
  notes : Str
deriving DecidableEq, Repr
/-- `CSV_HEADERS` (ui/manage_patients.py, line 25). -/
def CSV_HEADERS : List Str :=
  ["cin".toList, "first_name".toList, "last_name".toList, "birth_date".toList,
    "phone".toList, "email".toList, "notes".toList]
/-- The missing-header computation of `_import_csv` (line 559). -/
def missingHeaders (fieldnames : List Str) : List Str :=
  CSV_HEADERS.filter (fun h => decide (h ∉ fieldnames))
/-- The line-skipping loop of `_import_csv` (lines 551-556): the first line
is always kept; later lines are dropped when blank or when their stripped
form starts with `#`. -/
def keptLines (raw : List Str) : List Str :=
  (raw.enum.filter (fun il =>
    il.1 == 0 ||
      (!(stripStr il.2).isEmpty && !beginsWith (lstripStr il.2) ['#']))).map Prod.snd
/-- The required-field message of `_import_csv` line 571. -/
def reqMsg : Str := "cin, first_name and last_name are required".toList
/-- The per-row body of `_import_csv` (lines 566-580): normalize the key
fields, require them non-empty, parse the birth date, build the DTO and
create it; any failure surfaces as the error message of the raising step. -/
def processRow (st : Store) (row : RawRow) : Except Str Store :=
  let cin := upperStr (stripStr row.cin)
  let first := stripStr row.first_name
  let last := stripStr row.last_name
  if cin = [] ∨ first = [] ∨ last = [] then .error reqMsg
  else
    match parse_birth_date row.birth_date with
    | .error m => .error m
    | .ok bd =>
      let dto : PatientDTO :=
        { id := none, cin := cin, first_name := first, last_name := last
          birth_date := bd
          phone := if stripStr row.phone = [] then none else some (stripStr row.phone)
          email := if stripStr row.email = [] then none else some (stripStr row.email)
          notes := if stripStr row.notes = [] then none else some (stripStr row.notes) }
      match repoCreate st dto with
      | .error m => .error m
      | .ok (st2, _) => .ok st2
/-- One collected import error (lines 582-591): the 2-based position of the
failing row, the message, and the stripped original fields. -/
structure ErrEntry where
  line : Nat
  error : Str
  cin : Str
  first_name : Str
  last_name : Str
  birth_date : Str
  phone : Str
  email : Str
  notes : Str
deriving DecidableEq, Repr
/-- Build the collected entry for a failing row (lines 582-591). -/
def mkErr (line : Nat) (msg : Str) (row : RawRow) : ErrEntry :=
  { line := line, error := msg
    cin := stripStr row.cin, first_name := stripStr row.first_name
    last_name := stripStr row.last_name, birth_date := stripStr row.birth_date
    phone := stripStr row.phone, email := stripStr row.email
    notes := stripStr row.notes }
/-- The import loop of `_import_csv` (lines 564-591): a single pass with
accumulators `(store, created, errors)`, rows enumerated from line 2, a
failing row appended to the error list and otherwise committed. -/
def importRows (st : Store) (rows : List RawRow) : Store × Nat × List ErrEntry :=
  (List.enumFrom 2 rows).foldl
    (fun acc ir =>
      match processRow acc.1 ir.2 with
      | .ok st2 => (st2, acc.2.1 + 1, acc.2.2)
      | .error m => (acc.1, acc.2.1, acc.2.2 ++ [mkErr ir.1 m ir.2]))
    (st, 0, [])
/-- Declarative recursion describing the import batch: a failing row leaves
the store and the created count untouched, is recorded with its line number
and message, and the rest of the batch still runs. -/
def importRec (st : Store) (line : Nat) : List RawRow → Store × Nat × List ErrEntry
  | [] => (st, 0, [])
  | r :: rs =>
    match processRow st r with
    | .ok st2 =>
      let rest := importRec st2 (line + 1) rs
      (rest.1, rest.2.1 + 1, rest.2.2)
    | .error m =>
      let rest := importRec st (line + 1) rs
      (rest.1, rest.2.1, mkErr line m r :: rest.2.2)
/-- The header-gated import (lines 558-594): reject when any expected
header is missing, otherwise run the batch. -/
def importCsv (fieldnames : List Str) (st : Store) (rows : List RawRow) :
    Except Str (Store × Nat × List ErrEntry) :=
  if missingHeaders fieldnames = [] then .ok (importRows st rows)
  else .error ("Missing headers: ".toList ++ (missingHeaders fieldnames).flatten)
/-- One line of the error-report CSV (lines 609-613): the line number, the
message, then the original row fields. -/
def errorReportRow (e : ErrEntry) : List Str :=
  [Nat.toDigits 10 e.line, e.error, e.cin, e.first_name, e.last_name,
    e.birth_date, e.phone, e.email, e.notes]

/-- The date-range acceptance as the specification states it: a row with
no birth-date text always passes; otherwise the text must parse as
`%Y-%m-%d` and the date must not fall below a set lower bound nor above a
set upper bound; unparseable non-empty text is rejected.  (Compare with
`dateAccept`, the behaviour of the source.) -/
def dateAcceptClaimed (bfrom bto : Option Date) (birth : Str) : Bool :=
  birth.isEmpty ||
    (match parseIso birth with
     | some bd =>
       !(match bfrom with | some f => dateLtB bd f | none => false)
         && !(match bto with | some t => dateLtB t bd | none => false)
     | none => false)

theorem beginsWith_nil_pat (s : Str) : beginsWith s [] = true := by
  cases s <;> rfl
theorem hasSub_nil_pat (s : Str) : hasSub s [] = true := by
  induction s with
  | nil => rfl
  | cons c s ih => simp [hasSub, beginsWith_nil_pat]
theorem toLower_eq_eqsign {c : Char} (h : c.toLower = '=') : c = '=' := by
  unfold Char.toLower at h
  simp only [] at h
  by_cases hc : c.toNat ≥ 65 ∧ c.toNat ≤ 90
  · rw [if_pos hc] at h
    obtain ⟨h1, h2⟩ := hc
    set n := c.toNat with hn
    interval_cases n <;> exact absurd h (by decide)
  · rwa [if_neg hc] at h
theorem toLower_eq_star {c : Char} (h : c.toLower = '*') : c = '*' := by
  unfold Char.toLower at h
  simp only [] at h
  by_cases hc : c.toNat ≥ 65 ∧ c.toNat ≤ 90
  · rw [if_pos hc] at h
    obtain ⟨h1, h2⟩ := hc
    set n := c.toNat with hn
    interval_cases n <;> exact absurd h (by decide)
  · rwa [if_neg hc] at h
theorem lowerStr_eq_nil {p : Str} : lowerStr p = [] ↔ p = [] := by
  simp [lowerStr]
theorem endsWith_lower_star (p : Str) :
    endsWith (lowerStr p) ['*'] = endsWith p ['*'] := by
  unfold endsWith
  rw [lowerStr, ← List.map_reverse]
  cases hp : p.reverse with
  | nil => rfl
  | cons c t =>
    simp only [List.map_cons, beginsWith, beginsWith_nil_pat, Bool.and_true]
    rcases hb : (c.toLower == '*') with _ | _
    · rcases hb2 : (c == '*') with _ | _
      · rfl
      · exfalso
        have : c = '*' := beq_iff_eq.mp hb2
        subst this
        simp at hb
    · have : c = '*' := toLower_eq_star (beq_iff_eq.mp hb)
      subst this
      rfl
theorem beginsWith_lower_eqsign (p : Str) :
    beginsWith (lowerStr p) ['='] = beginsWith p ['='] := by
  cases p with
  | nil => rfl
  | cons c t =>
    simp only [lowerStr, List.map_cons, beginsWith, beginsWith_nil_pat, Bool.and_true]
    rcases hb : (c.toLower == '=') with _ | _
    · rcases hb2 : (c == '=') with _ | _
      · rfl
      · exfalso
        have : c = '=' := beq_iff_eq.mp hb2
        subst this
        simp at hb
    · have : c = '=' := toLower_eq_eqsign (beq_iff_eq.mp hb)
      subst this
      rfl
theorem lowerStr_tail (p : Str) : (lowerStr p).tail = lowerStr p.tail := by
  cases p <;> rfl
theorem lowerStr_dropLast (p : Str) : (lowerStr p).dropLast = lowerStr p.dropLast := by
  simp [lowerStr, List.map_dropLast]
theorem matchCin_eq_spec (p cell : Str) : matchCin p cell = matchCinSpec p cell := by
  unfold matchCin matchCinSpec
  by_cases hp : p = []
  · simp [hp]
  · rw [if_neg hp, if_neg hp]
    simp only []
    rw [beginsWith_lower_eqsign, endsWith_lower_star, lowerStr_tail, lowerStr_dropLast]
theorem strLeB_cons_iff (a b : Char) (as bs : Str) :
    strLeB (a :: as) (b :: bs) = true ↔
      a.toNat < b.toNat ∨ (a.toNat = b.toNat ∧ strLeB as bs = true) := by
  simp only [strLeB]
  split_ifs with h1 h2
  · simpa using Or.inl h1
  · constructor
    · intro h
      exact absurd h (by simp)
    · intro h
      rcases h with h | ⟨h, _⟩ <;> omega
  · constructor
    · intro h
      exact Or.inr ⟨by omega, h⟩
    · intro h
      rcases h with h | ⟨_, h⟩
      · omega
      · exact h
theorem strLeB_nil_left (b : Str) : strLeB [] b = true := by
  cases b <;> rfl
theorem strLeB_total : ∀ a b : Str, strLeB a b = true ∨ strLeB b a = true
  | [], b => Or.inl (strLeB_nil_left b)
  | _ :: _, [] => Or.inr rfl
  | a :: as, b :: bs => by
    rcases Nat.lt_trichotomy a.toNat b.toNat with h | h | h
    · exact Or.inl ((strLeB_cons_iff a b as bs).mpr (Or.inl h))
    · rcases strLeB_total as bs with ht | ht
      · exact Or.inl ((strLeB_cons_iff a b as bs).mpr (Or.inr ⟨h, ht⟩))
      · exact Or.inr ((strLeB_cons_iff b a bs as).mpr (Or.inr ⟨h.symm, ht⟩))
    · exact Or.inr ((strLeB_cons_iff b a bs as).mpr (Or.inl h))
theorem strLeB_trans : ∀ a b c : Str,
    strLeB a b = true → strLeB b c = true → strLeB a c = true
  | [], _, c, _, _ => strLeB_nil_left c
  | _ :: _, [], _, h1, _ => by simp [strLeB] at h1
  | _ :: _, _ :: _, [], _, h2 => by simp [strLeB] at h2
  | a :: as, b :: bs, c :: cs, h1, h2 => by
    rw [strLeB_cons_iff] at h1 h2 ⊢
    rcases h1 with h1 | ⟨h1, h1t⟩ <;> rcases h2 with h2 | ⟨h2, h2t⟩
    · exact Or.inl (by omega)
    · exact Or.inl (by omega)
    · exact Or.inl (by omega)
    · exact Or.inr ⟨by omega, strLeB_trans as bs cs h1t h2t⟩
theorem strLeB_antisymm : ∀ a b : Str,
    strLeB a b = true → strLeB b a = true → a = b
  | [], [], _, _ => rfl
  | [], _ :: _, _, h2 => by simp [strLeB] at h2
  | _ :: _, [], h1, _ => by simp [strLeB] at h1
  | a :: as, b :: bs, h1, h2 => by
    rw [strLeB_cons_iff] at h1 h2
    rcases h1 with h1 | ⟨h1, h1t⟩ <;> rcases h2 with h2 | ⟨h2, h2t⟩
    all_goals try omega
    have hab : a = b := Char.eq_of_val_eq (UInt32.ext h1)
    rw [hab, strLeB_antisymm as bs h1t h2t]
theorem all_map_apply {α β : Type} (l : List α) (g : α → β → Bool) (r : β) :
    ((l.map (fun cv => g cv)).all fun p => p r) = l.all (fun cv => g cv r) := by
  induction l with
  | nil => rfl
  | cons a l ih => simp only [List.map_cons, List.all_cons, ih]
theorem filterAcceptsRow_eq_all (fs : FilterState) (r : Row) :
    filterAcceptsRow fs r = (activePreds fs).all (fun p => p r) := by
  simp only [filterAcceptsRow, activePreds, List.all_append, List.all_cons,
    List.all_nil, Bool.and_true, Bool.and_assoc]
  rw [all_map_apply fs.include_values (fun cv r => inclAccept cv.1 cv.2 r) r]
theorem all_apply_of_perm {l l2 : List (Row → Bool)} (h : l.Perm l2) (r : Row) :
    l.all (fun p => p r) = l2.all (fun p => p r) := by
  rw [Bool.eq_iff_iff, List.all_eq_true, List.all_eq_true]
  constructor <;> intro hh p hp
  · exact hh p (h.mem_iff.mpr hp)
  · exact hh p (h.mem_iff.mp hp)

theorem NameLe_total : ∀ r s : Patient, NameLe r s ∨ NameLe s r := by
  intro r s
  unfold NameLe
  by_cases h : r.last_name = s.last_name
  · rw [if_pos h, if_pos h.symm]
    exact strLeB_total _ _
  · rw [if_neg h, if_neg (Ne.symm h)]
    exact strLeB_total _ _

theorem NameLe_trans : ∀ r s t : Patient, NameLe r s → NameLe s t → NameLe r t := by
  intro r s t
  unfold NameLe
  by_cases hrs : r.last_name = s.last_name <;>
    by_cases hst : s.last_name = t.last_name
  · rw [if_pos hrs, if_pos hst, if_pos (hrs.trans hst)]
    exact strLeB_trans _ _ _
  · rw [if_pos hrs, if_neg hst, if_neg (by rw [hrs]; exact hst)]
    intro _ h2
    rwa [hrs]
  · rw [if_neg hrs, if_pos hst, if_neg (by rw [← hst]; exact hrs)]
    intro h1 _
    rwa [← hst]
  · rw [if_neg hrs, if_neg hst]
    by_cases hrt : r.last_name = t.last_name
    · rw [if_pos hrt]
      intro h1 h2
      rw [hrt] at h1
      exact absurd (strLeB_antisymm _ _ h2 h1) hst
    · rw [if_neg hrt]
      exact strLeB_trans _ _ _

/-- C1: the filter layer exposes exactly the subsequence of source rows on
which every active predicate (inclusion sets, business key, the four text
predicates and the date range) is true, the acceptance test is the
conjunction of the individual predicates, and the result is invariant
under any permutation of the predicate list. -/
theorem c1_filter_conjunction_perm_invariant (S : List Row) (fs : FilterState) :
    (filteredRows fs S).Sublist S
    ∧ filteredRows fs S = S.filter (fun r => (activePreds fs).all (fun p => p r))
    ∧ (∀ r, r ∈ filteredRows fs S ↔ r ∈ S ∧ ∀ p ∈ activePreds fs, p r = true)
    ∧ ∀ l2 : List (Row → Bool), (activePreds fs).Perm l2 →
        S.filter (fun r => l2.all (fun p => p r)) = filteredRows fs S := by
  have hall : ∀ r, filterAcceptsRow fs r = (activePreds fs).all (fun p => p r) :=
    filterAcceptsRow_eq_all fs
  refine ⟨List.filter_sublist S, ?_, ?_, ?_⟩
  · exact List.filter_congr (fun r _ => hall r)
  · intro r
    unfold filteredRows
    rw [List.mem_filter, hall r, List.all_eq_true]
  · intro l2 hperm
    unfold filteredRows
    exact List.filter_congr (fun r _ => by
      rw [← all_apply_of_perm hperm r, ← hall r])

/-- C1 witness: permutation invariance applied at a concrete state and a
one-row sequence, with the permutation hypothesis discharged reflexively. -/
theorem c1_witness :
    List.filter
      (fun r => (activePreds ⟨[], [], [], [], [], none, none, []⟩).all (fun p => p r))
      [⟨['1'], ['A'], [], [], [], [], [], []⟩]
      = filteredRows ⟨[], [], [], [], [], none, none, []⟩
          [⟨['1'], ['A'], [], [], [], [], [], []⟩] :=
  (c1_filter_conjunction_perm_invariant
      [⟨['1'], ['A'], [], [], [], [], [], []⟩]
      ⟨[], [], [], [], [], none, none, []⟩).2.2.2
    (activePreds ⟨[], [], [], [], [], none, none, []⟩) (List.Perm.refl _)

/-- C3: the business-key predicate agrees everywhere with its three-mode
specification (leading `=` exact, trailing `*` start-of-value, otherwise
substring, all case-insensitive, empty accepts all), and on the concrete
examples: `=AB12` accepts exactly the case variants of `AB12`; `AB*`
accepts `AB12` and `ABxyz` but not `xAB12`; `B1` accepts exactly the
values containing `B1` case-insensitively. -/
theorem c3_business_key_modes :
    (∀ p cell : Str, matchCin p cell = matchCinSpec p cell)
    ∧ (∀ cell : Str, matchCin [] cell = true)
    ∧ (∀ cell : Str, matchCin "=AB12".toList cell = true ↔ lowerStr cell = "ab12".toList)
    ∧ matchCin "AB*".toList "AB12".toList = true
    ∧ matchCin "AB*".toList "ABxyz".toList = true
    ∧ matchCin "AB*".toList "xAB12".toList = false
    ∧ (∀ cell : Str, matchCin "B1".toList cell = hasSub (lowerStr cell) "b1".toList) := by
  refine ⟨matchCin_eq_spec, fun cell => rfl, ?_, by decide, by decide, by decide, ?_⟩
  · intro cell
    rw [matchCin_eq_spec]
    have h1 : matchCinSpec "=AB12".toList cell = (lowerStr cell == "ab12".toList) := rfl
    rw [h1]
    exact beq_iff_eq
  · intro cell
    rw [matchCin_eq_spec]
    rfl

/-- C3 witness: the exact-mode characterization applied at one value. -/
theorem c3_witness : matchCin "=AB12".toList "Ab12".toList = true :=
  (c3_business_key_modes.2.2.1 "Ab12".toList).mpr (by decide)

/-- C10: deleting an identifier that is not in the store is a silent no-op
that returns the store unchanged, and an update whose id is absent, once
its uniqueness check passes, also returns normally with the store
unchanged. -/
theorem c10_absent_identifier_noop (st : Store) (pid : Int) (dto : PatientDTO) (i : Int) :
    ((∀ r ∈ st, r.id ≠ pid) → repoDelete st pid = st)
    ∧ (dto.id = some i → exists_cin st dto.cin (some i) = false →
        (∀ r ∈ st, r.id ≠ i) → repoUpdate st dto = .ok st) := by
  constructor
  · intro h
    unfold repoDelete
    have hf : st.find? (fun r => r.id == pid) = none := by
      rw [List.find?_eq_none]
      intro r hr
      simpa using h r hr
    rw [hf]
  · intro hid hex h
    have hf : st.find? (fun r => r.id == i) = none := by
      rw [List.find?_eq_none]
      intro r hr
      simpa using h r hr
    simp only [repoUpdate, hid, hex, hf, Bool.false_eq_true, if_false]

/-- C10 witness: deleting the absent id 2 from a one-row store. -/
theorem c10_witness :
    repoDelete [⟨1, ['A'], ['f'], ['l'], none, none, none, none⟩] 2
      = [⟨1, ['A'], ['f'], ['l'], none, none, none, none⟩] :=
  (c10_absent_identifier_noop
      [⟨1, ['A'], ['f'], ['l'], none, none, none, none⟩] 2
      ⟨none, [], [], [], none, none, none, none⟩ 0).1 (by decide)

theorem windowSel_ge {α : Type} : ∀ (l : List α) (n s k : Nat), s ≤ n →
    ((List.enumFrom n l).filter
        (fun x => decide (s ≤ x.1) && decide (x.1 < s + k))).map Prod.snd
      = l.take (s + k - n)
  | [], n, s, k, h => by simp
  | a :: l, n, s, k, h => by
    rw [List.enumFrom_cons]
    by_cases hk : n < s + k
    · rw [List.filter_cons_of_pos (by simpa using ⟨h, hk⟩)]
      rw [List.map_cons]
      rw [windowSel_ge l (n + 1) s k (h.trans (Nat.le_succ n))]
      rw [show s + k - n = (s + k - (n + 1)) + 1 by omega, List.take_succ_cons]
    · rw [List.filter_cons_of_neg (by simpa using fun _ => by omega)]
      rw [windowSel_ge l (n + 1) s k (h.trans (Nat.le_succ n))]
      rw [show s + k - (n + 1) = 0 by omega, show s + k - n = 0 by omega]
      simp

theorem windowSel_le {α : Type} : ∀ (l : List α) (n s k : Nat), n ≤ s →
    ((List.enumFrom n l).filter
        (fun x => decide (s ≤ x.1) && decide (x.1 < s + k))).map Prod.snd
      = (l.drop (s - n)).take k
  | [], n, s, k, h => by simp
  | a :: l, n, s, k, h => by
    rcases Nat.eq_or_lt_of_le h with heq | hlt
    · rw [windowSel_ge (a :: l) n s k (le_of_eq heq.symm)]
      rw [show s - n = 0 by omega, show s + k - n = k by omega, List.drop_zero]
    · rw [List.enumFrom_cons]
      rw [List.filter_cons_of_neg (by simpa using fun hs => by omega)]
      rw [windowSel_le l (n + 1) s k hlt]
      rw [show s - n = (s - (n + 1)) + 1 by omega, List.drop_succ_cons]

theorem pageRows_eq_drop_take (p k : Nat) (S : List Row) :
    pageRows p k S = (S.drop ((p - 1) * k)).take k := by
  unfold pageRows pageAcceptsIdx
  have h := windowSel_le S 0 ((p - 1) * k) k (Nat.zero_le _)
  rw [Nat.sub_zero] at h
  exact h

/-- C2: the pagination layer exposes exactly the positions
`[(p-1)k, pk)` of the filtered sequence, clipped to its length;
`totalPages` is 1 for an empty sequence (with an empty window for any
page size), is at least 1, is the least page count covering all rows; and
for 23 rows with page size 10 it is 3, with windows of 10, 10 and 3 rows. -/
theorem c2_pagination_window (S : List Row) (p k : Nat) (hp : 1 ≤ p) (hk : 1 ≤ k) :
    pageRows p k S = (S.drop ((p - 1) * k)).take k
    ∧ totalPagesN 0 k = 1
    ∧ (S.length = 0 → pageRows p k S = [])
    ∧ 1 ≤ totalPagesN S.length k
    ∧ S.length ≤ totalPagesN S.length k * k
    ∧ (1 ≤ S.length → (totalPagesN S.length k - 1) * k < S.length)
    ∧ (S.length = 23 → k = 10 →
        totalPagesN S.length k = 3
        ∧ (pageRows 1 10 S).length = 10
        ∧ (pageRows 2 10 S).length = 10
        ∧ (pageRows 3 10 S).length = 3) := by
  have hwin := pageRows_eq_drop_take p k S
  have hlen : ∀ q : Nat, (pageRows q k S).length = min k (S.length - (q - 1) * k) := by
    intro q
    rw [pageRows_eq_drop_take q k S, List.length_take, List.length_drop]
  refine ⟨hwin, ?_, ?_, le_max_left 1 _, ?_, ?_, ?_⟩
  · unfold totalPagesN
    rw [Nat.div_eq_of_lt (by omega)]
    omega
  · intro h0
    rw [hwin, List.drop_eq_nil_of_le (by omega), List.take_nil]
  · unfold totalPagesN
    have hd := Nat.div_add_mod (S.length + k - 1) k
    have hm : (S.length + k - 1) % k < k := Nat.mod_lt _ (by omega)
    set q := (S.length + k - 1) / k with hq
    set r := (S.length + k - 1) % k with hr
    have hnq : S.length ≤ k * q := by omega
    calc S.length ≤ k * q := hnq
      _ ≤ k * max 1 q := Nat.mul_le_mul_left k (le_max_right 1 q)
      _ = max 1 q * k := Nat.mul_comm _ _
  · intro hn1
    unfold totalPagesN
    have hd := Nat.div_add_mod (S.length + k - 1) k
    have hm : (S.length + k - 1) % k < k := Nat.mod_lt _ (by omega)
    set q := (S.length + k - 1) / k with hq
    set r := (S.length + k - 1) % k with hr
    have hq1 : 1 ≤ q := by
      rcases Nat.eq_zero_or_pos q with h0 | h1
      · rw [h0] at hd
        simp at hd
        omega
      · exact h1
    rw [Nat.max_eq_right hq1]
    have hexp : (q - 1) * k = k * q - k := by
      rw [Nat.sub_mul, Nat.one_mul, Nat.mul_comm]
    rw [hexp]
    omega
  · intro h23 h10
    subst h10
    refine ⟨by rw [h23]; decide, ?_, ?_, ?_⟩ <;> rw [hlen, h23] <;> norm_num

/-- C2 witness: the third-page window of a 23-row sequence has 3 rows. -/
theorem c2_witness :
    (pageRows 3 10 (List.replicate 23 (⟨[], [], [], [], [], [], [], []⟩ : Row))).length = 3 :=
  (((c2_pagination_window (List.replicate 23 ⟨[], [], [], [], [], [], [], []⟩)
      3 10 (by decide) (by decide)).2.2.2.2.2.2 rfl rfl).2.2.2)

/-- C7: both setters keep their field at least 1 (so page 0 or a negative
page is never presented) and leave the other field alone, the total page
count is at least 1, and the label-update clamp sets the page to
`min page totalPages` (hence between 1 and totalPages) whenever the state
invariants `page ≥ 1`, `size ≥ 1` hold. -/
theorem c7_pagination_invariants (st : PageState) (p k : Int) (n : Nat)
    (hpg : 1 ≤ st.page) (hsz : 1 ≤ st.size) :
    1 ≤ (pp_set_page p st).page
    ∧ 1 ≤ (pp_set_page_size k st).size
    ∧ (pp_set_page p st).size = st.size
    ∧ (pp_set_page_size k st).page = st.page
    ∧ 1 ≤ pp_total_pages st n
    ∧ (clampPage st n).page = min st.page (pp_total_pages st n)
    ∧ 1 ≤ (clampPage st n).page
    ∧ (clampPage st n).page ≤ pp_total_pages st n := by
  have htp : 1 ≤ pp_total_pages st n := le_max_left 1 _
  have hclamp : (clampPage st n).page = min st.page (pp_total_pages st n) := by
    unfold clampPage
    simp only []
    by_cases hgt : st.page > pp_total_pages st n
    · rw [if_pos hgt]
      have hpage : (pp_set_page (pp_total_pages st n) st).page = pp_total_pages st n := by
        unfold pp_set_page
        simp only []
        omega
      rw [if_neg (by omega), hpage]
      omega
    · rw [if_neg hgt, if_neg (by omega)]
      omega
  refine ⟨le_max_left 1 p, le_max_left 1 k, rfl, rfl, htp, hclamp, ?_, ?_⟩
  · rw [hclamp]
    omega
  · rw [hclamp]
    omega

/-- C7 witness: clamping page 5 of a 23-row, size-10 state yields page 3. -/
theorem c7_witness :
    (clampPage ⟨5, 10⟩ 23).page = min 5 (pp_total_pages ⟨5, 10⟩ 23) :=
  (c7_pagination_invariants ⟨5, 10⟩ 0 0 23 (by decide) (by decide)).2.2.2.2.2.1

/-- C4 counterexample: with a lower bound set and the non-empty,
unparseable birth text `oops`, the source's date check accepts the row
while the specified predicate rejects it. -/
theorem c4_counterexample :
    dateAccept (some ⟨2000, 1, 1⟩) none "oops".toList = true
    ∧ dateAcceptClaimed (some ⟨2000, 1, 1⟩) none "oops".toList = false := by
  decide

/-- C4 (amended): with at least one bound set, a row passes the date-range
check exactly when its birth text is empty, or does not parse as
`%Y-%m-%d` (the source ignores the malformed text and keeps the row), or
parses to a date within the set bounds inclusive. -/
theorem c4_date_range_amended (f t : Option Date) (birth : Str)
    (h : f.isSome = true ∨ t.isSome = true) :
    dateAccept f t birth = true ↔
      (birth = [] ∨ parseIso birth = none ∨
        ∃ d, parseIso birth = some d
          ∧ (∀ fv, f = some fv → dateLtB d fv = false)
          ∧ (∀ tv, t = some tv → dateLtB tv d = false)) := by
  by_cases hb : birth = []
  · subst hb
    simp [dateAccept]
  · have hbe : birth.isEmpty = false := by
      cases birth
      · exact absurd rfl hb
      · rfl
    rcases f with _ | fv <;> rcases t with _ | tv
    · simp at h
    · cases hp : parseIso birth with
      | none => simp [dateAccept, hbe, hp, hb]
      | some d =>
        cases hlt : dateLtB tv d <;>
          simp [dateAccept, hbe, hp, hb, hlt]
    · cases hp : parseIso birth with
      | none => simp [dateAccept, hbe, hp, hb]
      | some d =>
        cases hlt : dateLtB d fv <;>
          simp [dateAccept, hbe, hp, hb, hlt]
    · cases hp : parseIso birth with
      | none => simp [dateAccept, hbe, hp, hb]
      | some d =>
        cases hlt1 : dateLtB d fv <;> cases hlt2 : dateLtB tv d <;>
          simp [dateAccept, hbe, hp, hb, hlt1, hlt2]

/-- C4 witness: a parseable date inside the bound passes. -/
theorem c4_witness :
    dateAccept (some ⟨2000, 1, 1⟩) none "2001-05-05".toList = true :=
  (c4_date_range_amended (some ⟨2000, 1, 1⟩) none "2001-05-05".toList
      (Or.inl rfl)).mpr
    (Or.inr (Or.inr ⟨⟨2001, 5, 5⟩, by decide,
      fun fv hf => by cases hf; decide,
      fun tv ht => by cases ht⟩))

theorem buildSeen_aux_nodup (vals : List Str) :
    ∀ acc : List Str, acc.Nodup →
      (vals.foldl (fun acc v => if v ∈ acc then acc else acc ++ [v]) acc).Nodup := by
  induction vals with
  | nil => intro acc h; exact h
  | cons v vs ih =>
    intro acc h
    simp only [List.foldl_cons]
    by_cases hv : v ∈ acc
    · rw [if_pos hv]
      exact ih acc h
    · rw [if_neg hv]
      exact ih (acc ++ [v]) (by simp [List.nodup_append, h, hv])

theorem buildSeen_nodup (vals : List Str) : (buildSeen vals).Nodup :=
  buildSeen_aux_nodup vals [] List.nodup_nil

theorem lookupIncl_eraseIncl (col : Nat) (l : List (Nat × List Str)) :
    lookupIncl col (eraseIncl col l) = none := by
  unfold lookupIncl eraseIncl
  rw [List.find?_eq_none.mpr]
  · rfl
  · intro e he
    rcases List.mem_filter.mp he with ⟨_, hcond⟩
    simpa using hcond

/-- C5: confirming a checklist whose chosen set equals the full set of
currently visible distinct values for the column stores no inclusion
restriction for it (the entry is cleared, exactly as an explicit clear
would), so afterwards the column's inclusion check rejects no row. -/
theorem c5_full_selection_clears (fs : FilterState) (S : List Row) (col : Nat)
    (chosen : List Str) (hnd : chosen.Nodup)
    (hset : ∀ x, x ∈ chosen ↔ x ∈ buildSeen (visibleVals fs S col)) :
    lookupIncl col
        (popupAccept col (buildSeen (visibleVals fs S col)) chosen fs).include_values
      = none
    ∧ (popupAccept col (buildSeen (visibleVals fs S col)) chosen fs).include_values
        = (set_inclusion_values col none fs).include_values
    ∧ ∀ r, inclStateAccept
        (popupAccept col (buildSeen (visibleVals fs S col)) chosen fs) col r = true := by
  have hseen : (buildSeen (visibleVals fs S col)).Nodup := buildSeen_nodup _
  have hfs : chosen.toFinset = (buildSeen (visibleVals fs S col)).toFinset := by
    apply Finset.ext
    intro x
    simp only [List.mem_toFinset]
    exact hset x
  have hlen : chosen.length = (buildSeen (visibleVals fs S col)).length := by
    rw [← List.toFinset_card_of_nodup hnd, ← List.toFinset_card_of_nodup hseen, hfs]
  have hpop : popupAccept col (buildSeen (visibleVals fs S col)) chosen fs
      = set_inclusion_values col none fs := by
    unfold popupAccept
    rw [if_pos hlen]
    rfl
  rw [hpop]
  have herase : (set_inclusion_values col none fs).include_values
      = eraseIncl col fs.include_values := rfl
  refine ⟨?_, rfl, ?_⟩
  · rw [herase]
    exact lookupIncl_eraseIncl col fs.include_values
  · intro r
    unfold inclStateAccept
    rw [herase, lookupIncl_eraseIncl col fs.include_values]

/-- C5 witness: checking the single visible value of column 1 clears the
restriction for that column. -/
theorem c5_witness :
    lookupIncl 1
        (popupAccept 1
          (buildSeen (visibleVals ⟨[], [], [], [], [], none, none, []⟩
            [⟨['1'], ['A'], [], [], [], [], [], []⟩] 1))
          (buildSeen (visibleVals ⟨[], [], [], [], [], none, none, []⟩
            [⟨['1'], ['A'], [], [], [], [], [], []⟩] 1))
          ⟨[], [], [], [], [], none, none, []⟩).include_values
      = none :=
  (c5_full_selection_clears ⟨[], [], [], [], [], none, none, []⟩
      [⟨['1'], ['A'], [], [], [], [], [], []⟩] 1
      (buildSeen (visibleVals ⟨[], [], [], [], [], none, none, []⟩
        [⟨['1'], ['A'], [], [], [], [], [], []⟩] 1))
      (by decide) (fun x => Iff.rfl)).1

theorem exists_cin_none_iff (st : Store) (cin : Str) :
    exists_cin st cin none = true ↔ ∃ r ∈ st, lowerStr r.cin = lowerStr cin := by
  unfold exists_cin
  rw [List.any_eq_true]
  constructor
  · rintro ⟨r, hr, hcond⟩
    refine ⟨r, hr, ?_⟩
    simpa using hcond
  · rintro ⟨r, hr, heq⟩
    exact ⟨r, hr, by simp [heq]⟩

theorem exists_cin_some_iff (st : Store) (cin : Str) (e : Int) :
    exists_cin st cin (some e) = true ↔
      ∃ r ∈ st, lowerStr r.cin = lowerStr cin ∧ r.id ≠ e := by
  unfold exists_cin
  rw [List.any_eq_true]
  constructor
  · rintro ⟨r, hr, hcond⟩
    simp only [Bool.and_eq_true, beq_iff_eq, Bool.not_eq_true', beq_eq_false_iff_ne] at hcond
    exact ⟨r, hr, hcond.1, hcond.2⟩
  · rintro ⟨r, hr, heq, hne⟩
    exact ⟨r, hr, by simp [heq, hne]⟩

/-- C6: creating a record whose business key collides case-insensitively
with an existing record fails with the duplicate-CIN error and leaves the
store unchanged; update fails identically when the collision is with a
different row, while a record whose key collides only with itself is
allowed to save. -/
theorem c6_unique_business_key (st : Store) (dto : PatientDTO) (i : Int) :
    ((∃ r ∈ st, lowerStr r.cin = lowerStr dto.cin) →
        repoCreate st dto = .error (dupMsg dto.cin)
        ∧ storeAfterCreate st dto = st)
    ∧ (dto.id = some i →
        ((∃ r ∈ st, lowerStr r.cin = lowerStr dto.cin ∧ r.id ≠ i) →
            repoUpdate st dto = .error (dupMsg dto.cin)
            ∧ storeAfterUpdate st dto = st)
        ∧ ((∀ r ∈ st, lowerStr r.cin = lowerStr dto.cin → r.id = i) →
            ∃ st2, repoUpdate st dto = .ok st2)) := by
  refine ⟨?_, ?_⟩
  · intro hex
    have hc : exists_cin st dto.cin none = true := (exists_cin_none_iff st dto.cin).mpr hex
    have herr : repoCreate st dto = .error (dupMsg dto.cin) := by
      unfold repoCreate
      rw [if_pos hc]
    exact ⟨herr, by unfold storeAfterCreate; rw [herr]⟩
  · intro hid
    constructor
    · intro hex
      have hc : exists_cin st dto.cin (some i) = true :=
        (exists_cin_some_iff st dto.cin i).mpr hex
      have herr : repoUpdate st dto = .error (dupMsg dto.cin) := by
        simp only [repoUpdate, hid, hc, if_true]
      exact ⟨herr, by unfold storeAfterUpdate; rw [herr]⟩
    · intro hall
      have hc : exists_cin st dto.cin (some i) = false := by
        rw [Bool.eq_false_iff]
        intro hc
        rcases (exists_cin_some_iff st dto.cin i).mp hc with ⟨r, hr, heq, hne⟩
        exact hne (hall r hr heq)
      cases hfind : st.find? (fun r => r.id == i) with
      | none =>
        refine ⟨st, ?_⟩
        simp only [repoUpdate, hid, hc, hfind, Bool.false_eq_true, if_false]
      | some r0 =>
        refine ⟨replaceFirst (fun r => r.id == i) (applyDto dto i) st, ?_⟩
        simp only [repoUpdate, hid, hc, hfind, Bool.false_eq_true, if_false]

/-- C6 witness: creating `ab100` against a store holding `AB100` fails and
leaves the store unchanged; the same record updating itself may save. -/
theorem c6_witness :
    repoCreate [⟨1, "AB100".toList, ['f'], ['l'], none, none, none, none⟩]
        ⟨some 1, "ab100".toList, ['f'], ['l'], none, none, none, none⟩
      = .error (dupMsg "ab100".toList)
    ∧ storeAfterCreate [⟨1, "AB100".toList, ['f'], ['l'], none, none, none, none⟩]
        ⟨some 1, "ab100".toList, ['f'], ['l'], none, none, none, none⟩
      = [⟨1, "AB100".toList, ['f'], ['l'], none, none, none, none⟩] :=
  (c6_unique_business_key
      [⟨1, "AB100".toList, ['f'], ['l'], none, none, none, none⟩]
      ⟨some 1, "ab100".toList, ['f'], ['l'], none, none, none, none⟩ 1).1
    (by decide)

theorem toLower_eq_pct {c : Char} (h : c.toLower = '%') : c = '%' := by
  unfold Char.toLower at h
  simp only [] at h
  by_cases hc : c.toNat ≥ 65 ∧ c.toNat ≤ 90
  · rw [if_pos hc] at h
    obtain ⟨h1, h2⟩ := hc
    set n := c.toNat with hn
    interval_cases n <;> exact absurd h (by decide)
  · rwa [if_neg hc] at h

theorem toLower_eq_uscore {c : Char} (h : c.toLower = '_') : c = '_' := by
  unfold Char.toLower at h
  simp only [] at h
  by_cases hc : c.toNat ≥ 65 ∧ c.toNat ≤ 90
  · rw [if_pos hc] at h
    obtain ⟨h1, h2⟩ := hc
    set n := c.toNat with hn
    interval_cases n <;> exact absurd h (by decide)
  · rwa [if_neg hc] at h

theorem beginsWith_nil_left (pat : Str) : beginsWith [] pat = pat.isEmpty := by
  cases pat <;> rfl

theorem beqChar_comm (c d : Char) : (c == d) = (d == c) :=
  Bool.coe_iff_coe.mp
    (by constructor <;> (intro h; exact beq_iff_eq.mpr (beq_iff_eq.mp h).symm))

theorem any_eq_of_forall {α : Type} (l : List α) (f g : α → Bool)
    (h : ∀ x ∈ l, f x = g x) : l.any f = l.any g := by
  induction l with
  | nil => rfl
  | cons a l ih =>
    rw [List.any_cons, List.any_cons, h a (List.mem_cons_self a l),
      ih (fun x hx => h x (List.mem_cons_of_mem a hx))]

theorem hasSub_eq_any_tails : ∀ s pat : Str,
    hasSub s pat = s.tails.any (fun t => beginsWith t pat)
  | [], pat => by cases pat <;> rfl
  | c :: s, pat => by
    rw [List.tails_cons, List.any_cons, ← hasSub_eq_any_tails s pat]
    rfl

theorem likeMatch_pct (p : Str) (s : Str) :
    likeMatch ('%' :: p) s = s.tails.any (fun t => likeMatch p t) := rfl

theorem likeLit : ∀ pat s : Str, noWildcards pat = true →
    likeMatch (pat ++ ['%']) s = beginsWith s pat
  | [], s, _ => by
    rw [beginsWith_nil_pat, List.nil_append, likeMatch_pct, List.any_eq_true]
    exact ⟨[], (List.mem_tails _ _).mpr List.nil_suffix, rfl⟩
  | c :: pat, s, hw => by
    have h2 := hw
    simp only [noWildcards, List.all_cons, Bool.and_eq_true, Bool.not_eq_true',
      beq_eq_false_iff_ne] at h2
    obtain ⟨⟨hcp, hcu⟩, hrest⟩ := h2
    rw [List.cons_append]
    unfold likeMatch
    rw [if_neg hcp]
    cases s with
    | nil => rfl
    | cons d s2 =>
      simp only []
      rw [if_neg hcu, likeLit pat s2 hrest, beqChar_comm c d]
      rfl

theorem likePctLit (pat : Str) (hw : noWildcards pat = true) (s : Str) :
    likeMatch ('%' :: (pat ++ ['%'])) s = hasSub s pat := by
  rw [likeMatch_pct, hasSub_eq_any_tails]
  exact any_eq_of_forall _ _ _ (fun t _ => likeLit pat t hw)

theorem noWildcards_lower (q : Str) (h : noWildcards q = true) :
    noWildcards (lowerStr q) = true := by
  unfold noWildcards at h ⊢
  unfold lowerStr
  rw [List.all_map, List.all_eq_true]
  rw [List.all_eq_true] at h
  intro c hc
  have hcq := h c hc
  simp only [Function.comp, Bool.and_eq_true, Bool.not_eq_true',
    beq_eq_false_iff_ne] at hcq ⊢
  exact ⟨fun e => hcq.1 (toLower_eq_pct e), fun e => hcq.2 (toLower_eq_uscore e)⟩

/-- C8 counterexample: the query `a_c` is passed unescaped to SQL `LIKE`,
where `_` matches any single character, so the program returns the record
whose business key is `abc` although `a_c` occurs in none of its fields as
a substring — the claim's substring reading excludes it. -/
theorem c8_counterexample :
    matchesQuery "a_c".toList ⟨1, "abc".toList, [], [], none, none, none, none⟩ = true
    ∧ (¬ ∃ s ∈ queryFields (⟨1, "abc".toList, [], [], none, none, none, none⟩ : Patient),
          hasSub (lowerStr s) (lowerStr "a_c".toList) = true)
    ∧ repoList [⟨1, "abc".toList, [], [], none, none, none, none⟩]
          (some "a_c".toList)
        = [⟨1, "abc".toList, [], [], none, none, none, none⟩] := by
  decide

/-- C8 (amended): `list` returns exactly the matching records ordered by
last name then first name, every record matching an absent query; a
present query matches a record when the SQL `LIKE` pattern `%query%`
matches some lowered field (business key, first or last name, phone,
email, notes, or the birth-date text), with `%` in the query matching any
character sequence and `_` any single character; for a query containing
neither wildcard this is exactly case-insensitive substring containment;
on the store `Martin, Ahmed, Ziad` an absent query returns
`Ahmed, Martin, Ziad`. -/
theorem c8_search_order_and_match (st : Store) (q : Str) :
    List.Sorted NameLe (repoList st none)
    ∧ (repoList st none).Perm st
    ∧ (∀ r, r ∈ repoList st none ↔ r ∈ st)
    ∧ List.Sorted NameLe (repoList st (some q))
    ∧ (q ≠ [] → (repoList st (some q)).Perm (st.filter (matchesQuery q)))
    ∧ (q ≠ [] → ∀ r, r ∈ repoList st (some q) ↔ r ∈ st ∧ matchesQuery q r = true)
    ∧ (∀ r, matchesQuery q r = true ↔
        ∃ s ∈ queryFields r,
          likeMatch ('%' :: (lowerStr q ++ ['%'])) (lowerStr s) = true)
    ∧ (noWildcards q = true → ∀ r, matchesQuery q r = true ↔
        ∃ s ∈ queryFields r, hasSub (lowerStr s) (lowerStr q) = true)
    ∧ repoList
        [⟨1, [], [], "Martin".toList, none, none, none, none⟩,
         ⟨2, [], [], "Ahmed".toList, none, none, none, none⟩,
         ⟨3, [], [], "Ziad".toList, none, none, none, none⟩] none
      = [⟨2, [], [], "Ahmed".toList, none, none, none, none⟩,
         ⟨1, [], [], "Martin".toList, none, none, none, none⟩,
         ⟨3, [], [], "Ziad".toList, none, none, none, none⟩] := by
  have hsorted : ∀ l : Store, List.Sorted NameLe (List.insertionSort NameLe l) :=
    fun l => @List.sorted_insertionSort _ NameLe _ ⟨NameLe_total⟩ ⟨NameLe_trans⟩ l
  have hnone : repoList st none = List.insertionSort NameLe st := rfl
  refine ⟨?_, ?_, ?_, ?_, ?_, ?_, ?_, ?_, ?_⟩
  · rw [hnone]
    exact hsorted st
  · rw [hnone]
    exact List.perm_insertionSort NameLe st
  · intro r
    rw [hnone]
    exact (List.perm_insertionSort NameLe st).mem_iff
  · by_cases hq : q = []
    · have : repoList st (some q) = List.insertionSort NameLe st := by
        unfold repoList
        simp only []
        rw [if_pos hq]
      rw [this]
      exact hsorted st
    · have : repoList st (some q)
          = List.insertionSort NameLe (st.filter (matchesQuery q)) := by
        unfold repoList
        simp only []
        rw [if_neg hq]
      rw [this]
      exact hsorted _
  · intro hq
    have : repoList st (some q)
        = List.insertionSort NameLe (st.filter (matchesQuery q)) := by
      unfold repoList
      simp only []
      rw [if_neg hq]
    rw [this]
    exact List.perm_insertionSort NameLe _
  · intro hq r
    have : repoList st (some q)
        = List.insertionSort NameLe (st.filter (matchesQuery q)) := by
      unfold repoList
      simp only []
      rw [if_neg hq]
    rw [this, (List.perm_insertionSort NameLe _).mem_iff, List.mem_filter]
  · intro r
    unfold matchesQuery
    rw [List.any_eq_true]
  · intro hw r
    have hpt : ∀ f : Str,
        likeMatch ('%' :: (lowerStr q ++ ['%'])) (lowerStr f)
          = hasSub (lowerStr f) (lowerStr q) :=
      fun f => likePctLit (lowerStr q) (noWildcards_lower q hw) (lowerStr f)
    unfold matchesQuery
    rw [List.any_eq_true]
    constructor
    · rintro ⟨f, hf, hm⟩
      exact ⟨f, hf, by rw [← hpt f]; exact hm⟩
    · rintro ⟨f, hf, hm⟩
      exact ⟨f, hf, by rw [hpt f]; exact hm⟩
  · decide

/-- C8 witness: for the wildcard-free query `b1` matching is exactly
case-insensitive substring containment, at a concrete record. -/
theorem c8_witness :
    matchesQuery "b1".toList ⟨1, "AB1".toList, [], [], none, none, none, none⟩ = true
      ↔ ∃ s ∈ queryFields (⟨1, "AB1".toList, [], [], none, none, none, none⟩ : Patient),
          hasSub (lowerStr s) (lowerStr "b1".toList) = true :=
  (c8_search_order_and_match
      [⟨1, "AB1".toList, [], [], none, none, none, none⟩] "b1".toList).2.2.2.2.2.2.2.1
    (by decide) ⟨1, "AB1".toList, [], [], none, none, none, none⟩

theorem keptLines_aux : ∀ (rest : List Str) (n : Nat), n ≠ 0 →
    ((List.enumFrom n rest).filter (fun il =>
        il.1 == 0 ||
          (!(stripStr il.2).isEmpty && !beginsWith (lstripStr il.2) ['#']))).map Prod.snd
      = rest.filter (fun l => !(stripStr l).isEmpty && !beginsWith (lstripStr l) ['#'])
  | [], n, h => rfl
  | l :: rest, n, h => by
    rw [List.enumFrom_cons]
    have hn : (n == 0) = false := by simpa using h
    rw [List.filter_cons, List.filter_cons]
    by_cases hl : (!(stripStr l).isEmpty && !beginsWith (lstripStr l) ['#']) = true
    · rw [if_pos (by simp only [hn, Bool.false_or]; exact hl), if_pos hl,
        List.map_cons, keptLines_aux rest (n + 1) (by omega)]
    · rw [if_neg (by simp only [hn, Bool.false_or]; exact hl), if_neg hl,
        keptLines_aux rest (n + 1) (by omega)]

theorem keptLines_cons (l0 : Str) (rest : List Str) :
    keptLines (l0 :: rest)
      = l0 :: rest.filter (fun l =>
          !(stripStr l).isEmpty && !beginsWith (lstripStr l) ['#']) := by
  unfold keptLines
  rw [show List.enum (l0 :: rest) = (0, l0) :: List.enumFrom 1 rest from rfl]
  rw [List.filter_cons, if_pos (by simp), List.map_cons]
  rw [keptLines_aux rest 1 (by omega)]

theorem importFold_aux :
    ∀ (rows : List RawRow) (st : Store) (line c : Nat) (errs : List ErrEntry),
      (List.enumFrom line rows).foldl
          (fun acc ir =>
            match processRow acc.1 ir.2 with
            | .ok st2 => (st2, acc.2.1 + 1, acc.2.2)
            | .error m => (acc.1, acc.2.1, acc.2.2 ++ [mkErr ir.1 m ir.2]))
          (st, c, errs)
        = ((importRec st line rows).1, c + (importRec st line rows).2.1,
            errs ++ (importRec st line rows).2.2)
  | [], st, line, c, errs => by simp [importRec]
  | r :: rs, st, line, c, errs => by
    rw [List.enumFrom_cons, List.foldl_cons]
    cases hpr : processRow st r with
    | ok st2 =>
      simp only [hpr]
      rw [importFold_aux rs st2 (line + 1) (c + 1) errs]
      simp [importRec, hpr, Prod.ext_iff, List.append_assoc]
      omega
    | error m =>
      simp only [hpr]
      rw [importFold_aux rs st (line + 1) c (errs ++ [mkErr line m r])]
      simp [importRec, hpr, Prod.ext_iff, List.append_assoc]

theorem importRows_eq_importRec (st : Store) (rows : List RawRow) :
    importRows st rows = importRec st 2 rows := by
  unfold importRows
  rw [importFold_aux rows st 2 0 []]
  simp

theorem importRec_count : ∀ (rows : List RawRow) (st : Store) (line : Nat),
    (importRec st line rows).2.1 + (importRec st line rows).2.2.length = rows.length
  | [], st, line => rfl
  | r :: rs, st, line => by
    cases hpr : processRow st r with
    | ok st2 =>
      simp only [importRec, hpr, List.length_cons]
      have := importRec_count rs st2 (line + 1)
      omega
    | error m =>
      simp only [importRec, hpr, List.length_cons]
      have := importRec_count rs st (line + 1)
      omega

/-- C9: the import rejects the file when any expected header is missing
(and only then); among data lines, blank lines and lines whose stripped
form begins with `#` are skipped; a data row with an empty business key,
first name or last name fails with the required-field message; the birth
date tries `%Y-%m-%d`, `%m/%d/%Y`, `%d/%m/%Y` in that order with the
first success winning (so `02/03/1990` is February 3); the batch never
aborts on a row failure — the failing row is recorded with its line
number, message and stripped original fields while the rest commits — and
created-count plus error-count equals the row count; each error-report
line is the line number, the message, then the original fields. -/
theorem c9_csv_import :
    (∀ fn : List Str, missingHeaders fn = [] ↔ ∀ h ∈ CSV_HEADERS, h ∈ fn)
    ∧ (∀ (fn : List Str) (st : Store) (rows : List RawRow),
        missingHeaders fn ≠ [] →
          importCsv fn st rows
            = .error ("Missing headers: ".toList ++ (missingHeaders fn).flatten))
    ∧ (∀ (fn : List Str) (st : Store) (rows : List RawRow),
        missingHeaders fn = [] → importCsv fn st rows = .ok (importRows st rows))
    ∧ (∀ (l0 : Str) (rest : List Str),
        keptLines (l0 :: rest)
          = l0 :: rest.filter (fun l =>
              !(stripStr l).isEmpty && !beginsWith (lstripStr l) ['#']))
    ∧ (∀ (st : Store) (row : RawRow),
        stripStr row.cin = [] ∨ stripStr row.first_name = [] ∨ stripStr row.last_name = [] →
          processRow st row = .error reqMsg)
    ∧ (∀ (s : Str) (d : Date),
        parseIso (stripStr s) = some d → parse_birth_date s = .ok (some d))
    ∧ (∀ (s : Str) (d : Date),
        parseIso (stripStr s) = none → parseMDY (stripStr s) = some d →
          parse_birth_date s = .ok (some d))
    ∧ (∀ (s : Str) (d : Date),
        parseIso (stripStr s) = none → parseMDY (stripStr s) = none →
          parseDMY (stripStr s) = some d → parse_birth_date s = .ok (some d))
    ∧ parse_birth_date "02/03/1990".toList = .ok (some ⟨1990, 2, 3⟩)
    ∧ (∀ (st : Store) (rows : List RawRow), importRows st rows = importRec st 2 rows)
    ∧ (∀ (st : Store) (rows : List RawRow),
        (importRows st rows).2.1 + (importRows st rows).2.2.length = rows.length)
    ∧ (∀ (line : Nat) (msg : Str) (row : RawRow),
        errorReportRow (mkErr line msg row)
          = [Nat.toDigits 10 line, msg, stripStr row.cin, stripStr row.first_name,
              stripStr row.last_name, stripStr row.birth_date, stripStr row.phone,
              stripStr row.email, stripStr row.notes]) := by
  refine ⟨?_, ?_, ?_, keptLines_cons, ?_, ?_, ?_, ?_, rfl, importRows_eq_importRec,
    ?_, fun line msg row => rfl⟩
  · intro fn
    unfold missingHeaders
    rw [List.filter_eq_nil_iff]
    simp
  · intro fn st rows hne
    unfold importCsv
    rw [if_neg hne]
  · intro fn st rows he
    unfold importCsv
    rw [if_pos he]
  · intro st row h
    unfold processRow
    simp only []
    rw [if_pos ?hcond]
    case hcond =>
      rcases h with h | h | h
      · exact Or.inl (by rw [h]; rfl)
      · exact Or.inr (Or.inl h)
      · exact Or.inr (Or.inr h)
  · intro s d hiso
    unfold parse_birth_date
    simp only []
    have ht : ¬stripStr s = [] := by
      intro ht
      rw [ht] at hiso
      simp [parseIso, parseYear4] at hiso
    rw [if_neg ht, hiso]
  · intro s d hiso hmdy
    unfold parse_birth_date
    simp only []
    have ht : ¬stripStr s = [] := by
      intro ht
      rw [ht] at hmdy
      simp [parseMDY, parseMonth2] at hmdy
    rw [if_neg ht, hiso, hmdy]
  · intro s d hiso hmdy hdmy
    unfold parse_birth_date
    simp only []
    have ht : ¬stripStr s = [] := by
      intro ht
      rw [ht] at hdmy
      simp [parseDMY, parseDay2] at hdmy
    rw [if_neg ht, hiso, hmdy, hdmy]
  · intro st rows
    rw [importRows_eq_importRec]
    exact importRec_count rows st 2

/-- C9 witness: a complete header row passes the gate and the batch runs. -/
theorem c9_witness :
    importCsv CSV_HEADERS [] [] = .ok (importRows [] []) :=
  c9_csv_import.2.2.1 CSV_HEADERS [] [] (by decide)
